import Mathlib

/-!
Verification of the process-termination timer TUI (src/main.rs).

This file gives a shallow embedding of the application state machine of the
source program and proves the specification claims about it.  Pure Rust
functions become Lean functions on an explicit `App` record; the ambient
effects are made explicit parameters:

* `Instant` values become natural numbers (`timer_start : Option Nat`,
  a `now : Nat` argument where the source reads the clock); `Instant::elapsed`
  saturates at zero, matching `Nat` subtraction.
* the `sysinfo` process snapshot becomes a `snapshot : List (Pid × String)`
  argument to `refresh_processes`;
* the post-refresh existence lookup of `kill_process` becomes a predicate
  `procExists : Pid → Bool`, and the platform kill action's reported result
  becomes `killResult : Pid → Bool` (Unix) / `taskkill : Pid → Option Bool`
  (Windows, `none` modelling a failed `Command` spawn);
* `u64` values are `Nat` with explicit `% 2 ^ 64` where the source can
  overflow (the `minutes * 60 + seconds` product; release-mode wrapping
  semantics).
-/

abbrev Pid := Nat

inductive AppMode where
  | ProcessSelect
  | TimerInput
  | TimerRunning
  deriving DecidableEq, Repr

/-- The `App` struct of the source, minus the `sysinfo::System` handle
(whose snapshots are passed explicitly) and with `ListState` reduced to the
`Option Nat` it stores. -/
structure App where
  processes : List (Pid × String)
  filtered_processes : List (Pid × String)
  list_state : Option Nat
  search_query : String
  selected_pid : Option Pid
  mode : AppMode
  timer_input : String
  timer_seconds : Nat
  timer_start : Option Nat
  status_message : String
  deriving DecidableEq, Repr

/- Status-message string constants of the source. -/

def msgInit : String := "프로세스를 선택하세요 (↑↓: 이동, /: 검색, Enter: 선택)"

def msgTimerPrompt : String := "타이머 시간을 입력하세요 (분:초 형식, 예: 5:30 또는 300초)"

def msgTimerRunning : String := "타이머 실행 중... (Q: 취소)"

def msgBadFormat : String := "잘못된 형식입니다. 예: 5:30 또는 300"

def msgKilled : String := "프로세스가 종료되었습니다."

def msgKillFailed : String := "프로세스 종료 실패"

def msgSelectShort : String := "프로세스를 선택하세요"

def msgTimerCancelled : String := "타이머가 취소되었습니다"

/- String helpers modelling the Rust string operations used by the source. -/

/-- `needle.isPrefixOf hay` on character lists, written out. -/
def isPrefixCh : List Char → List Char → Bool
  | [], _ => true
  | _ :: _, [] => false
  | a :: as, b :: bs => a == b && isPrefixCh as bs

/-- Substring containment (`str::contains` with a string pattern):
does `needle` occur contiguously inside the second list? -/
def containsSub (needle : List Char) : List Char → Bool
  | [] => needle.isEmpty
  | c :: t => isPrefixCh needle (c :: t) || containsSub needle t

/-- `to_lowercase` modelled per character. -/
def lowerChars (s : String) : List Char := s.toList.map Char.toLower

/-- `name.to_lowercase().contains(&query.to_lowercase())`. -/
def containsLower (name query : String) : Bool :=
  containsSub (lowerChars query) (lowerChars name)

/-- `String::pop`: drop the last character. -/
def strPop (s : String) : String := String.mk s.toList.dropLast

/- `sort_by(|a, b| a.1.cmp(&b.1))`: a stable sort on the name component.
Rust's sort is a stable mergesort; a stable insertion sort produces the same
ordering for the same total comparison, and no claim depends on more. -/

def insertByName (p : Pid × String) : List (Pid × String) → List (Pid × String)
  | [] => [p]
  | q :: rest => if p.2 < q.2 then p :: q :: rest else q :: insertByName p rest

def sortByName (l : List (Pid × String)) : List (Pid × String) :=
  l.foldl (fun acc p => insertByName p acc) []

/-- `App::filter_processes` (src/main.rs:75-94): rebuild
`filtered_processes` from `processes` and the query, then clamp the stored
selection index when it falls past the end of the new list
(`len().saturating_sub(1)`, which is `some 0` on an empty list). -/
def filter_processes (app : App) : App :=
  let filtered :=
    if app.search_query = "" then app.processes
    else app.processes.filter (fun p => containsLower p.2 app.search_query)
  let ls :=
    match app.list_state with
    | some selected =>
        if selected ≥ filtered.length then some (filtered.length - 1)
        else some selected
    | none => none
  { app with filtered_processes := filtered, list_state := ls }

/-- `App::refresh_processes` (src/main.rs:58-73): replace `processes` with
the (name-sorted) snapshot, re-filter, then select index 0 when the filtered
list is non-empty and nothing was selected. -/
def refresh_processes (app : App) (snapshot : List (Pid × String)) : App :=
  let app1 := filter_processes { app with processes := sortByName snapshot }
  if ¬ app1.filtered_processes.isEmpty ∧ app1.list_state = none then
    { app1 with list_state := some 0 }
  else app1

/-- `App::next` (src/main.rs:96-108). -/
def next (app : App) : App :=
  let i :=
    match app.list_state with
    | some i =>
        if i ≥ app.filtered_processes.length - 1 then 0 else i + 1
    | none => 0
  { app with list_state := some i }

/-- `App::previous` (src/main.rs:110-122). -/
def previous (app : App) : App :=
  let i :=
    match app.list_state with
    | some i =>
        if i = 0 then app.filtered_processes.length - 1 else i - 1
    | none => 0
  { app with list_state := some i }

/-- `App::select_process` (src/main.rs:124-132): on a successful
bounds-checked `get`, capture the pid and switch to timer input. -/
def select_process (app : App) : App :=
  match app.list_state with
  | some selected =>
    match app.filtered_processes[selected]? with
    | some (pid, _) =>
        { app with selected_pid := some pid, mode := AppMode.TimerInput,
                   status_message := msgTimerPrompt }
    | none => app
  | none => app

/- Timer parsing (`App::parse_timer_input`, src/main.rs:145-161). -/

def u64Size : Nat := 2 ^ 64

/-- One step of reading a decimal digit onto an accumulator; `none` as soon
as a non-digit appears. -/
def digitStep (acc : Option Nat) (c : Char) : Option Nat :=
  match acc with
  | some n => if c.isDigit then some (n * 10 + (c.toNat - 48)) else none
  | none => none

/-- Fold a character list as decimal digits. -/
def digitsToNat (l : List Char) : Option Nat := l.foldl digitStep (some 0)

def valStep (acc : Nat) (c : Char) : Nat := acc * 10 + (c.toNat - 48)

/-- The value of a digit string (total version of `digitsToNat`). -/
def valDigits (l : List Char) : Nat := l.foldl valStep 0

/-- Drop one optional leading `+` sign. -/
def stripPlus : List Char → List Char
  | [] => []
  | c :: rest => if c = '+' then rest else c :: rest

/-- Rust `str::parse::<u64>`: an optional leading `+`, then at least one
digit, value below `2 ^ 64` (overflow is a parse error). -/
def parseU64 (s : List Char) : Option Nat :=
  let t := stripPlus s
  if t = [] then none
  else
    match digitsToNat t with
    | some n => if n < u64Size then some n else none
    | none => none

/-- `str::trim`: drop whitespace from both ends. -/
def trimCh (l : List Char) : List Char :=
  ((l.dropWhile Char.isWhitespace).reverse.dropWhile Char.isWhitespace).reverse

/-- `input.find(':')`: split at the first colon, if any. -/
def splitAtColon : List Char → Option (List Char × List Char)
  | [] => none
  | c :: rest =>
    if c = ':' then some ([], rest)
    else
      match splitAtColon rest with
      | some (a, b) => some (c :: a, b)
      | none => none

/-- `App::parse_timer_input` as a pure function of the input text.  When a
colon is present both sides must parse as `u64` (any failure is an error;
there is no fall-through to the bare-seconds grammar); otherwise the whole
trimmed input must parse as `u64`.  The `minutes * 60 + seconds` product is
`u64` arithmetic, hence the `% 2 ^ 64`. -/
def parse_timer (input : String) : Option Nat :=
  let s := trimCh input.toList
  match splitAtColon s with
  | some (mPart, sPart) =>
    match parseU64 mPart, parseU64 sPart with
    | some m, some sec => some ((m * 60 + sec) % u64Size)
    | _, _ => none
  | none => parseU64 s

def parse_timer_input (app : App) : Option Nat := parse_timer app.timer_input

/-- `App::start_timer` (src/main.rs:134-143). -/
def start_timer (app : App) (now : Nat) : App :=
  match parse_timer_input app with
  | some seconds =>
      { app with timer_seconds := seconds, timer_start := some now,
                 mode := AppMode.TimerRunning, status_message := msgTimerRunning }
  | none => { app with status_message := msgBadFormat }

/-- `App::get_remaining_time` (src/main.rs:163-172). -/
def get_remaining_time (app : App) (now : Nat) : Option Nat :=
  match app.timer_start with
  | some start =>
    let elapsed := now - start
    if elapsed ≥ app.timer_seconds then some 0
    else some (app.timer_seconds - elapsed)
  | none => none

/-- `App::kill_process` (src/main.rs:174-202), Unix path: after the fresh
`refresh_process`/`process(pid)` lookup (modelled by `procExists`), the
source calls `process.kill()`, discards its boolean result, and returns
`true`. -/
def kill_process_unix (app : App) (procExists killResult : Pid → Bool) : Bool :=
  match app.selected_pid with
  | some pid =>
    if procExists pid then
      let _ := killResult pid
      true
    else false
  | none => false

/-- `App::kill_process`, Windows path: the result of a successful `taskkill`
spawn is `result.status.success()`; a failed spawn (`taskkill = none`)
returns `false`. -/
def kill_process_windows (app : App) (procExists : Pid → Bool)
    (taskkill : Pid → Option Bool) : Bool :=
  match app.selected_pid with
  | some pid =>
    if procExists pid then
      match taskkill pid with
      | some success => success
      | none => false
    else false
  | none => false

/-- The timer-expiry check at the top of each loop iteration
(src/main.rs:218-234), with the Unix kill path. -/
def timer_tick (app : App) (now : Nat) (procExists killResult : Pid → Bool)
    (snapshot : List (Pid × String)) : App :=
  if app.mode = AppMode.TimerRunning then
    match get_remaining_time app now with
    | some 0 =>
      if kill_process_unix app procExists killResult then
        refresh_processes
          { app with status_message := msgKilled, mode := AppMode.ProcessSelect,
                     selected_pid := none, timer_start := none }
          snapshot
      else
        { app with status_message := msgKillFailed, mode := AppMode.ProcessSelect }
    | _ => app
  else app

/-- One key-press event, as classified by `handle_events`
(src/main.rs:432-492). -/
inductive KeyEvent where
  | up
  | down
  | enter
  | backspace
  | esc
  | ch (c : Char)
  deriving DecidableEq, Repr

/-- `handle_events` (src/main.rs:432-492).  Pressing `q`/`Q` in the first
two modes exits the program; exiting leaves the state unchanged, so it is
modelled as the identity here. -/
def handle_event (app : App) (e : KeyEvent) (now : Nat) : App :=
  match app.mode with
  | AppMode.ProcessSelect =>
    match e with
    | .up => previous app
    | .down => next app
    | .enter => select_process app
    | .ch c =>
        if c = 'q' ∨ c = 'Q' then app
        else if c = '/' then { app with search_query := "" }
        else filter_processes { app with search_query := app.search_query.push c }
    | .backspace => filter_processes { app with search_query := strPop app.search_query }
    | .esc => app
  | AppMode.TimerInput =>
    match e with
    | .esc =>
        { app with mode := AppMode.ProcessSelect, selected_pid := none,
                   timer_input := "", status_message := msgSelectShort }
    | .enter => start_timer app now
    | .ch c =>
        if c = 'q' ∨ c = 'Q' then app
        else { app with timer_input := app.timer_input.push c }
    | .backspace => { app with timer_input := strPop app.timer_input }
    | _ => app
  | AppMode.TimerRunning =>
    match e with
    | .ch c =>
        if c = 'q' ∨ c = 'Q' then
          { app with mode := AppMode.ProcessSelect, selected_pid := none,
                     timer_start := none, status_message := msgTimerCancelled }
        else app
    | _ => app

/-- One iteration of the main loop (src/main.rs:215-242): timer-expiry check,
then the (possibly absent) input event, then the periodic catalog refresh
when the mode ended up in `ProcessSelect`. -/
def loop_iter (app : App) (now : Nat) (procExists killResult : Pid → Bool)
    (snapKill snapRefresh : List (Pid × String)) (ev : Option KeyEvent) : App :=
  let a1 := timer_tick app now procExists killResult snapKill
  let a2 :=
    match ev with
    | some e => handle_event a1 e now
    | none => a1
  if a2.mode = AppMode.ProcessSelect then refresh_processes a2 snapRefresh
  else a2

/-- `App::new` before the initial refresh (src/main.rs:40-56). -/
def App.blank : App :=
  { processes := [], filtered_processes := [], list_state := none,
    search_query := "", selected_pid := none, mode := AppMode.ProcessSelect,
    timer_input := "", timer_seconds := 0, timer_start := none,
    status_message := msgInit }

/-- `App::new`: the blank state followed by the initial refresh against the
startup snapshot. -/
def App.new (snapshot : List (Pid × String)) : App :=
  refresh_processes App.blank snapshot

/-- States of the application at main-loop iteration boundaries. -/
inductive Reachable : App → Prop where
  | init (snapshot : List (Pid × String)) : Reachable (App.new snapshot)
  | step (app : App) (now : Nat) (procExists killResult : Pid → Bool)
      (snapKill snapRefresh : List (Pid × String)) (ev : Option KeyEvent) :
      Reachable app →
      Reachable (loop_iter app now procExists killResult snapKill snapRefresh ev)

/-! ## Helper lemmas -/

theorem get_remaining_time_eq (app : App) (now start : Nat)
    (h : app.timer_start = some start) :
    get_remaining_time app now = some (app.timer_seconds - (now - start)) := by
  simp only [get_remaining_time, h]
  split
  · next hge => congr 1; omega
  · rfl

theorem containsSub_nil (hay : List Char) : containsSub [] hay = true := by
  cases hay <;> simp [containsSub, isPrefixCh, List.isEmpty]

theorem containsLower_empty (name : String) : containsLower name "" = true := by
  unfold containsLower lowerChars
  simp only [String.toList]
  exact containsSub_nil _

/-! ## Claims -/

/-- **C7**: `get_remaining_time` returns `none` exactly when the timer is not
armed; when armed it is `max(0, total − elapsed)` (saturating `Nat`
subtraction), monotonically non-increasing as the clock advances for a fixed
arming, and exactly `0` — staying `0` — once the elapsed time reaches the
total. -/
theorem remaining_time_spec :
    (∀ app now, app.timer_start = none ↔ get_remaining_time app now = none)
    ∧ (∀ app now start, app.timer_start = some start →
        get_remaining_time app now = some (app.timer_seconds - (now - start)))
    ∧ (∀ app now now' start, app.timer_start = some start → now ≤ now' →
        ∀ r r', get_remaining_time app now = some r →
          get_remaining_time app now' = some r' → r' ≤ r)
    ∧ (∀ app now start, app.timer_start = some start →
        app.timer_seconds ≤ now - start →
        get_remaining_time app now = some 0 ∧
          ∀ now', now ≤ now' → get_remaining_time app now' = some 0) := by
  refine ⟨?_, ?_, ?_, ?_⟩
  · intro app now
    constructor
    · intro h; simp [get_remaining_time, h]
    · intro h
      cases hs : app.timer_start with
      | none => rfl
      | some start => rw [get_remaining_time_eq app now start hs] at h; exact absurd h (by simp)
  · exact get_remaining_time_eq
  · intro app now now' start hs hle r r' hr hr'
    rw [get_remaining_time_eq app now start hs] at hr
    rw [get_remaining_time_eq app now' start hs] at hr'
    have h1 : r = app.timer_seconds - (now - start) := by injection hr; omega
    have h2 : r' = app.timer_seconds - (now' - start) := by injection hr'; omega
    omega
  · intro app now start hs helapsed
    constructor
    · rw [get_remaining_time_eq app now start hs]; congr 1; omega
    · intro now' hle
      rw [get_remaining_time_eq app now' start hs]; congr 1; omega

def armedApp : App := { App.blank with timer_seconds := 5, timer_start := some 2 }

theorem remaining_time_spec_witness :
    get_remaining_time armedApp 3 = some (5 - (3 - 2)) ∧
      get_remaining_time armedApp 10 = some 0 :=
  ⟨remaining_time_spec.2.1 armedApp 3 2 rfl,
   (remaining_time_spec.2.2.2 armedApp 10 2 rfl (by decide)).1⟩

/-- **C8**: on a non-empty filtered list, move-down from the last index wraps
to index 0 and move-up from index 0 wraps to the last index; on a
single-element list both leave the index at 0. -/
theorem navigation_wraparound_spec :
    (∀ app, app.filtered_processes ≠ [] →
      app.list_state = some (app.filtered_processes.length - 1) →
      (next app).list_state = some 0)
    ∧ (∀ app, app.filtered_processes ≠ [] → app.list_state = some 0 →
      (previous app).list_state = some (app.filtered_processes.length - 1))
    ∧ (∀ app, app.filtered_processes.length = 1 → app.list_state = some 0 →
      (next app).list_state = some 0 ∧ (previous app).list_state = some 0) := by
  refine ⟨?_, ?_, ?_⟩
  · intro app _ h
    simp [next, h]
  · intro app _ h
    simp [previous, h]
  · intro app hlen h
    constructor
    · simp [next, h, hlen]
    · simp [previous, h, hlen]

def twoApp : App := { App.blank with filtered_processes := [(1, "a"), (2, "b")], list_state := some 1 }

def twoApp0 : App := { App.blank with filtered_processes := [(1, "a"), (2, "b")], list_state := some 0 }

def oneApp : App := { App.blank with filtered_processes := [(1, "a")], list_state := some 0 }

theorem navigation_wraparound_spec_witness :
    (next twoApp).list_state = some 0 ∧
      (previous twoApp0).list_state = some 1 ∧
      (next oneApp).list_state = some 0 :=
  ⟨navigation_wraparound_spec.1 twoApp (by decide) rfl,
   navigation_wraparound_spec.2.1 twoApp0 (by decide) rfl,
   (navigation_wraparound_spec.2.2 oneApp rfl rfl).1⟩

/-- **C9**: in `TimerInput` mode the confirm key runs `start_timer`; on parse
success it arms the timer with the parsed seconds and moves to
`TimerRunning`; on parse failure only the status message changes (to the
invalid-format error), so the mode stays `TimerInput` and the timer remains
unarmed. -/
theorem start_timer_spec :
    (∀ app now, app.mode = AppMode.TimerInput →
      handle_event app KeyEvent.enter now = start_timer app now)
    ∧ (∀ app now s, parse_timer_input app = some s →
      start_timer app now =
        { app with timer_seconds := s, timer_start := some now,
                   mode := AppMode.TimerRunning, status_message := msgTimerRunning })
    ∧ (∀ app now, parse_timer_input app = none →
      start_timer app now = { app with status_message := msgBadFormat })
    ∧ (∀ app now, app.mode = AppMode.TimerInput → parse_timer_input app = none →
      (start_timer app now).mode = AppMode.TimerInput ∧
      (start_timer app now).timer_start = app.timer_start ∧
      (start_timer app now).timer_input = app.timer_input ∧
      (start_timer app now).status_message = msgBadFormat) := by
  refine ⟨?_, ?_, ?_, ?_⟩
  · intro app now h
    simp [handle_event, h]
  · intro app now s h
    simp [start_timer, h]
  · intro app now h
    simp [start_timer, h]
  · intro app now hm h
    simp [start_timer, h, hm]

def abcApp : App := { App.blank with mode := AppMode.TimerInput, timer_input := "abc" }

def fiveApp : App := { App.blank with mode := AppMode.TimerInput, timer_input := "5" }

theorem start_timer_spec_witness :
    start_timer abcApp 0 = { abcApp with status_message := msgBadFormat } ∧
      start_timer fiveApp 7
        = { fiveApp with timer_seconds := 5, timer_start := some 7,
                         mode := AppMode.TimerRunning, status_message := msgTimerRunning } :=
  ⟨start_timer_spec.2.2.1 abcApp 0 (by decide),
   start_timer_spec.2.1 fiveApp 7 5 (by decide)⟩

/-! ### Field-preservation helpers -/

theorem filter_processes_mode (app : App) : (filter_processes app).mode = app.mode := rfl

theorem filter_processes_selected_pid (app : App) :
    (filter_processes app).selected_pid = app.selected_pid := rfl

theorem refresh_processes_mode (app : App) (snap : List (Pid × String)) :
    (refresh_processes app snap).mode = app.mode := by
  unfold refresh_processes
  dsimp only
  split <;> rfl

theorem refresh_processes_selected_pid (app : App) (snap : List (Pid × String)) :
    (refresh_processes app snap).selected_pid = app.selected_pid := by
  unfold refresh_processes
  dsimp only
  split <;> rfl

theorem refresh_processes_timer_start (app : App) (snap : List (Pid × String)) :
    (refresh_processes app snap).timer_start = app.timer_start := by
  unfold refresh_processes
  dsimp only
  split <;> rfl

/-- **C2** (amended): `kill_process` re-validates the target in a fresh
lookup and returns `false` when it has vanished (or no target is set); on
the Windows path the result equals whether the `taskkill` action reports
success (`false` when the spawn itself fails); on the Unix path the result
of `process.kill()` is discarded and `kill_process` returns `true` whenever
the target still exists. -/
theorem kill_process_spec :
    (∀ app (pe kr : Pid → Bool) (tk : Pid → Option Bool), app.selected_pid = none →
      kill_process_unix app pe kr = false ∧ kill_process_windows app pe tk = false)
    ∧ (∀ app pid (pe kr : Pid → Bool) (tk : Pid → Option Bool),
        app.selected_pid = some pid → pe pid = false →
        kill_process_unix app pe kr = false ∧ kill_process_windows app pe tk = false)
    ∧ (∀ app pid (pe kr : Pid → Bool), app.selected_pid = some pid → pe pid = true →
        kill_process_unix app pe kr = true)
    ∧ (∀ app pid (pe : Pid → Bool) (tk : Pid → Option Bool),
        app.selected_pid = some pid → pe pid = true →
        kill_process_windows app pe tk = (tk pid).getD false) := by
  refine ⟨?_, ?_, ?_, ?_⟩
  · intro app pe kr tk h
    exact ⟨by simp [kill_process_unix, h], by simp [kill_process_windows, h]⟩
  · intro app pid pe kr tk h hpe
    exact ⟨by simp [kill_process_unix, h, hpe], by simp [kill_process_windows, h, hpe]⟩
  · intro app pid pe kr h hpe
    simp [kill_process_unix, h, hpe]
  · intro app pid pe tk h hpe
    simp only [kill_process_windows, h, hpe, if_true]
    cases tk pid <;> simp

def killApp : App := { App.blank with selected_pid := some 1 }

theorem kill_process_spec_witness :
    kill_process_unix killApp (fun _ => true) (fun _ => true) = true ∧
      kill_process_windows killApp (fun _ => true) (fun _ => some false) = false :=
  ⟨kill_process_spec.2.2.1 killApp 1 (fun _ => true) (fun _ => true) rfl rfl,
   (kill_process_spec.2.2.2 killApp 1 (fun _ => true) (fun _ => some false) rfl rfl).trans rfl⟩

/-- **C2** counterexample: with the target alive and the Unix kill action
reporting failure, `kill_process` still returns `true` — its result does not
equal the action's reported success. -/
theorem kill_process_unix_ignores_result :
    kill_process_unix killApp (fun _ => true) (fun _ => false) = true ∧
      (fun _ : Pid => false) 1 = false :=
  ⟨by decide, rfl⟩

/-- **C5**: after filtering, every entry of `filtered_processes` contains the
query case-insensitively in its name, `filtered_processes` is an
order-preserving subsequence of `processes`, and the empty query keeps every
entry. -/
theorem filter_processes_spec :
    (∀ app p, p ∈ (filter_processes app).filtered_processes →
      containsLower p.2 app.search_query = true)
    ∧ (∀ app, List.Sublist (filter_processes app).filtered_processes app.processes)
    ∧ (∀ app, app.search_query = "" →
      (filter_processes app).filtered_processes = app.processes) := by
  refine ⟨?_, ?_, ?_⟩
  · intro app p hp
    by_cases hq : app.search_query = ""
    · rw [hq]; exact containsLower_empty _
    · simp only [filter_processes, if_neg hq] at hp
      exact (List.mem_filter.mp hp).2
  · intro app
    by_cases hq : app.search_query = ""
    · simp only [filter_processes, if_pos hq]
      exact List.Sublist.refl _
    · simp only [filter_processes, if_neg hq]
      exact List.filter_sublist _
  · intro app hq
    simp only [filter_processes, if_pos hq]

def queryApp : App :=
  { App.blank with processes := [(1, "Alpha"), (2, "beta")], search_query := "AL" }

theorem filter_processes_spec_witness :
    containsLower "Alpha" "AL" = true ∧
      List.Sublist (filter_processes queryApp).filtered_processes queryApp.processes ∧
      (filter_processes { queryApp with search_query := "" }).filtered_processes
        = queryApp.processes :=
  ⟨filter_processes_spec.1 queryApp (1, "Alpha") (by decide),
   filter_processes_spec.2.1 queryApp,
   filter_processes_spec.2.2 _ rfl⟩

/-- **C4** (amended): in `Selecting` mode, confirm with an existing in-bounds
selection captures the selected entry's pid as the target and transitions to
`ConfiguringTimer`, leaving the timer-input buffer unchanged (it is cleared
by cancel from `ConfiguringTimer`, not by confirm); confirm with no process
highlighted — no selection, or an out-of-bounds index — is a no-op. -/
theorem select_process_spec :
    (∀ app i pid name, app.list_state = some i →
      app.filtered_processes[i]? = some (pid, name) →
      select_process app =
        { app with selected_pid := some pid, mode := AppMode.TimerInput,
                   status_message := msgTimerPrompt })
    ∧ (∀ app, app.list_state = none → select_process app = app)
    ∧ (∀ app i, app.list_state = some i → app.filtered_processes[i]? = none →
      select_process app = app) := by
  refine ⟨?_, ?_, ?_⟩
  · intro app i pid name h1 h2
    simp [select_process, h1, h2]
  · intro app h
    simp [select_process, h]
  · intro app i h1 h2
    simp [select_process, h1, h2]

def noProc : Pid → Bool := fun _ => false

def c4s0 : App := App.new [(1, "p")]

def c4s1 : App := loop_iter c4s0 0 noProc noProc [] [] (some KeyEvent.enter)

def c4s2 : App := loop_iter c4s1 0 noProc noProc [] [] (some (KeyEvent.ch '5'))

def c4s3 : App := loop_iter c4s2 0 noProc noProc [] [] (some KeyEvent.enter)

def c4s4 : App := loop_iter c4s3 0 noProc noProc [] [(1, "p")] (some (KeyEvent.ch 'q'))

theorem select_process_spec_witness :
    select_process { App.blank with filtered_processes := [(7, "x")], list_state := some 0 }
      = { { App.blank with filtered_processes := [(7, "x")], list_state := some 0 } with
          selected_pid := some 7, mode := AppMode.TimerInput,
          status_message := msgTimerPrompt } :=
  select_process_spec.1 _ 0 7 "x" rfl rfl

/-- **C4** counterexample: a reachable `Selecting` state with a stale "5" in
the timer-input buffer (select, type "5", confirm, cancel from `Running`);
confirming again keeps the buffer at "5" instead of clearing it. -/
theorem select_process_keeps_timer_input :
    Reachable c4s4 ∧ c4s4.mode = AppMode.ProcessSelect ∧ c4s4.list_state = some 0 ∧
      c4s4.filtered_processes = [(1, "p")] ∧ c4s4.timer_input = "5" ∧
      (select_process c4s4).mode = AppMode.TimerInput ∧
      (select_process c4s4).timer_input = "5" :=
  ⟨Reachable.step c4s3 0 noProc noProc [] [(1, "p")] (some (KeyEvent.ch 'q'))
     (Reachable.step c4s2 0 noProc noProc [] [] (some KeyEvent.enter)
       (Reachable.step c4s1 0 noProc noProc [] [] (some (KeyEvent.ch '5'))
         (Reachable.step c4s0 0 noProc noProc [] [] (some KeyEvent.enter)
           (Reachable.init [(1, "p")])))),
   by decide, by decide, by decide, by decide, by decide, by decide⟩

/-- **C1** (amended): in `Running` mode, a tick observing `remaining() == 0`
dispatches the kill on the target; on success it clears the target, disarms
the timer, refreshes the catalog and returns to `Selecting`; on failure it
only sets the failure status and returns to `Selecting` — the target is not
cleared and the timer is not disarmed (the mode change alone stops further
expiry checks). -/
theorem running_expiry_transition :
    ∀ app now (pe kr : Pid → Bool) snap,
      app.mode = AppMode.TimerRunning →
      get_remaining_time app now = some 0 →
      ((kill_process_unix app pe kr = true →
          timer_tick app now pe kr snap =
            refresh_processes
              { app with status_message := msgKilled, mode := AppMode.ProcessSelect,
                         selected_pid := none, timer_start := none } snap)
        ∧ (kill_process_unix app pe kr = false →
          timer_tick app now pe kr snap =
            { app with status_message := msgKillFailed, mode := AppMode.ProcessSelect })
        ∧ (timer_tick app now pe kr snap).mode = AppMode.ProcessSelect) := by
  intro app now pe kr snap hm hr
  refine ⟨?_, ?_, ?_⟩
  · intro hk
    simp [timer_tick, hm, hr, hk]
  · intro hk
    simp [timer_tick, hm, hr, hk]
  · by_cases hk : kill_process_unix app pe kr = true
    · rw [show timer_tick app now pe kr snap =
          refresh_processes
            { app with status_message := msgKilled, mode := AppMode.ProcessSelect,
                       selected_pid := none, timer_start := none } snap
          from by simp [timer_tick, hm, hr, hk]]
      rw [refresh_processes_mode]
    · rw [show timer_tick app now pe kr snap =
          { app with status_message := msgKillFailed, mode := AppMode.ProcessSelect }
          from by simp [timer_tick, hm, hr, Bool.eq_false_iff.mpr hk]]

def runApp : App :=
  { App.blank with mode := AppMode.TimerRunning, selected_pid := some 1,
                   timer_start := some 0, timer_seconds := 0 }

theorem running_expiry_transition_witness :
    timer_tick runApp 0 noProc noProc []
      = { runApp with status_message := msgKillFailed, mode := AppMode.ProcessSelect } :=
  (running_expiry_transition runApp 0 noProc noProc [] rfl (by decide)).2.1 (by decide)

def c1s1 : App := loop_iter (App.new [(1, "p")]) 0 noProc noProc [] [] (some KeyEvent.enter)

def c1s2 : App := loop_iter c1s1 0 noProc noProc [] [] (some (KeyEvent.ch '0'))

def c1s3 : App := loop_iter c1s2 0 noProc noProc [] [] (some KeyEvent.enter)

/-- **C1** counterexample: a reachable `Running` state whose timer has
expired and whose target has vanished; the failing dispatch leaves the
target set and the timer armed, contrary to the claim that the failure
branch clears the target and disarms the timer. -/
theorem running_expiry_failure_keeps_target :
    Reachable c1s3 ∧ c1s3.mode = AppMode.TimerRunning ∧
      get_remaining_time c1s3 1 = some 0 ∧
      kill_process_unix c1s3 noProc noProc = false ∧
      (timer_tick c1s3 1 noProc noProc []).mode = AppMode.ProcessSelect ∧
      (timer_tick c1s3 1 noProc noProc []).selected_pid = some 1 ∧
      (timer_tick c1s3 1 noProc noProc []).timer_start = some 0 :=
  ⟨Reachable.step c1s2 0 noProc noProc [] [] (some KeyEvent.enter)
     (Reachable.step c1s1 0 noProc noProc [] [] (some (KeyEvent.ch '0'))
       (Reachable.step (App.new [(1, "p")]) 0 noProc noProc [] [] (some KeyEvent.enter)
         (Reachable.init [(1, "p")]))),
   by decide, by decide, by decide, by decide, by decide, by decide⟩

/-! ### Parsing lemmas -/

def decimalDigits : List Char := ['0', '1', '2', '3', '4', '5', '6', '7', '8', '9']

theorem digit_char_facts (c : Char) (h : c ∈ decimalDigits) :
    c.isDigit = true ∧ c.isWhitespace = false ∧ c ≠ ':' ∧ c ≠ '+' ∧ c ≠ '-' := by
  simp only [decimalDigits, List.mem_cons, List.not_mem_nil, or_false] at h
  rcases h with rfl | rfl | rfl | rfl | rfl | rfl | rfl | rfl | rfl | rfl <;> decide

theorem foldl_digitStep_digits (l : List Char) :
    ∀ a : Nat, (∀ c ∈ l, c.isDigit = true) →
      l.foldl digitStep (some a) = some (l.foldl valStep a) := by
  induction l with
  | nil => intro a _; rfl
  | cons c rest ih =>
    intro a h
    have hc : c.isDigit = true := h c (List.mem_cons_self c rest)
    rw [List.foldl_cons, List.foldl_cons]
    rw [show digitStep (some a) c = some (valStep a c) from by
      simp [digitStep, valStep, hc]]
    exact ih _ (fun d hd => h d (List.mem_cons_of_mem c hd))

theorem foldl_digitStep_none (l : List Char) : l.foldl digitStep none = none := by
  induction l with
  | nil => rfl
  | cons c rest ih => rw [List.foldl_cons]; exact ih

theorem foldl_digitStep_nondigit (l : List Char) :
    ∀ (a : Nat) (c : Char), c ∈ l → c.isDigit = false →
      l.foldl digitStep (some a) = none := by
  induction l with
  | nil => intro a c hc _; exact absurd hc (List.not_mem_nil c)
  | cons d rest ih =>
    intro a c hc hnd
    rw [List.foldl_cons]
    cases hd : d.isDigit with
    | true =>
      have hcr : c ∈ rest := by
        rcases List.mem_cons.mp hc with heq | h2
        · subst heq; simp [hd] at hnd
        · exact h2
      rw [show digitStep (some a) d = some (valStep a d) from by
        simp [digitStep, valStep, hd]]
      exact ih _ c hcr hnd
    | false =>
      rw [show digitStep (some a) d = none from by simp [digitStep, hd]]
      exact foldl_digitStep_none rest

theorem digitsToNat_of_digits (l : List Char) (h : ∀ c ∈ l, c.isDigit = true) :
    digitsToNat l = some (valDigits l) :=
  foldl_digitStep_digits l 0 h

theorem digitsToNat_none (l : List Char) (c : Char) (hc : c ∈ l)
    (h1 : c.isDigit = false) : digitsToNat l = none :=
  foldl_digitStep_nondigit l 0 c hc h1

theorem parseU64_digits (l : List Char) (h0 : l ≠ [])
    (hd : ∀ c ∈ l, c ∈ decimalDigits) (hb : valDigits l < u64Size) :
    parseU64 l = some (valDigits l) := by
  cases l with
  | nil => exact absurd rfl h0
  | cons c t =>
    have hc := digit_char_facts c (hd c (List.mem_cons_self c t))
    have hstrip : stripPlus (c :: t) = c :: t := by
      simp [stripPlus, hc.2.2.2.1]
    have hdig : ∀ d ∈ c :: t, d.isDigit = true :=
      fun d hdm => (digit_char_facts d (hd d hdm)).1
    simp only [parseU64, hstrip]
    rw [if_neg (by simp)]
    rw [digitsToNat_of_digits (c :: t) hdig]
    simp [hb]

theorem parseU64_none_of_mem (l : List Char) (c : Char) (hc : c ∈ l)
    (h1 : c.isDigit = false) (h2 : c ≠ '+') : parseU64 l = none := by
  cases l with
  | nil => exact absurd hc (List.not_mem_nil c)
  | cons d t =>
    by_cases hd : d = '+'
    · subst hd
      have hct : c ∈ t := by
        rcases List.mem_cons.mp hc with heq | h
        · exact absurd heq h2
        · exact h
      have hstrip : stripPlus ('+' :: t) = t := by simp [stripPlus]
      cases t with
      | nil => exact absurd hct (List.not_mem_nil c)
      | cons e t2 =>
        simp only [parseU64, hstrip]
        rw [if_neg (by simp)]
        rw [digitsToNat_none (e :: t2) c hct h1]
    · have hstrip : stripPlus (d :: t) = d :: t := by simp [stripPlus, hd]
      simp only [parseU64, hstrip]
      rw [if_neg (by simp)]
      rw [digitsToNat_none (d :: t) c hc h1]

theorem parseU64_none_of_all_nondigit (l : List Char)
    (h : ∀ c ∈ l, c.isDigit = false) : parseU64 l = none := by
  cases l with
  | nil => rfl
  | cons c t =>
    by_cases hc : c = '+'
    · subst hc
      have hstrip : stripPlus ('+' :: t) = t := by simp [stripPlus]
      cases t with
      | nil => simp [parseU64, hstrip]
      | cons e t2 =>
        simp only [parseU64, hstrip]
        rw [if_neg (by simp)]
        rw [digitsToNat_none (e :: t2) e (List.mem_cons_self e t2)
          (h e (List.mem_cons_of_mem _ (List.mem_cons_self e t2)))]
    · have hstrip : stripPlus (c :: t) = c :: t := by simp [stripPlus, hc]
      simp only [parseU64, hstrip]
      rw [if_neg (by simp)]
      rw [digitsToNat_none (c :: t) c (List.mem_cons_self c t)
        (h c (List.mem_cons_self c t))]

theorem splitAtColon_append (a b : List Char) (h : ':' ∉ a) :
    splitAtColon (a ++ ':' :: b) = some (a, b) := by
  induction a with
  | nil => simp [splitAtColon]
  | cons c t ih =>
    have hc : c ≠ ':' := fun hce => h (hce ▸ List.mem_cons_self c t)
    have ht : ':' ∉ t := fun hm => h (List.mem_cons_of_mem c hm)
    simp [splitAtColon, if_neg hc, ih ht]

theorem splitAtColon_none (l : List Char) (h : ':' ∉ l) : splitAtColon l = none := by
  induction l with
  | nil => rfl
  | cons c t ih =>
    have hc : c ≠ ':' := fun hce => h (hce ▸ List.mem_cons_self c t)
    have ht : ':' ∉ t := fun hm => h (List.mem_cons_of_mem c hm)
    simp [splitAtColon, if_neg hc, ih ht]

theorem splitAtColon_some (l : List Char) (p q : List Char)
    (h : splitAtColon l = some (p, q)) : l = p ++ ':' :: q ∧ ':' ∉ p := by
  induction l generalizing p q with
  | nil => simp [splitAtColon] at h
  | cons c t ih =>
    by_cases hc : c = ':'
    · subst hc
      simp only [splitAtColon, if_pos rfl, Option.some.injEq, Prod.mk.injEq] at h
      obtain ⟨rfl, rfl⟩ := h
      exact ⟨rfl, List.not_mem_nil _⟩
    · simp only [splitAtColon, if_neg hc] at h
      cases hs : splitAtColon t with
      | none => rw [hs] at h; simp at h
      | some pr =>
        obtain ⟨a, b⟩ := pr
        rw [hs] at h
        simp only [Option.some.injEq, Prod.mk.injEq] at h
        obtain ⟨hp, hq⟩ := h
        subst hp
        subst hq
        obtain ⟨heq, hna⟩ := ih a b hs
        refine ⟨by rw [heq]; rfl, ?_⟩
        intro hm
        rcases List.mem_cons.mp hm with heq2 | h2
        · exact hc heq2.symm
        · exact hna h2

theorem splitAtColon_isSome (l : List Char) (h : ':' ∈ l) :
    ∃ p q, splitAtColon l = some (p, q) := by
  induction l with
  | nil => exact absurd h (List.not_mem_nil _)
  | cons c t ih =>
    by_cases hc : c = ':'
    · subst hc; exact ⟨[], t, by simp [splitAtColon]⟩
    · have ht : ':' ∈ t := by
        rcases List.mem_cons.mp h with heq | h2
        · exact absurd heq.symm hc
        · exact h2
      obtain ⟨p, q, hpq⟩ := ih ht
      exact ⟨c :: p, q, by simp [splitAtColon, if_neg hc, hpq]⟩

theorem toList_mk (l : List Char) : (String.mk l).toList = l := rfl

theorem dropWhile_eq_self_of (p : Char → Bool) (l : List Char)
    (h : ∀ c ∈ l, p c = false) : l.dropWhile p = l := by
  cases l with
  | nil => rfl
  | cons c t =>
    rw [List.dropWhile_cons, if_neg (by simp [h c (List.mem_cons_self c t)])]

theorem trimCh_eq_self (l : List Char) (h : ∀ c ∈ l, c.isWhitespace = false) :
    trimCh l = l := by
  unfold trimCh
  rw [dropWhile_eq_self_of _ _ h]
  rw [dropWhile_eq_self_of _ _ (fun c hc => h c (List.mem_reverse.mp hc))]
  exact List.reverse_reverse l

theorem mem_dropWhile_of_mem (p : Char → Bool) (l : List Char) (c : Char)
    (hc : c ∈ l) (hp : p c = false) : c ∈ l.dropWhile p := by
  induction l with
  | nil => exact absurd hc (List.not_mem_nil c)
  | cons d t ih =>
    rw [List.dropWhile_cons]
    by_cases hd : p d = true
    · rw [if_pos hd]
      rcases List.mem_cons.mp hc with heq | h2
      · subst heq; simp [hp] at hd
      · exact ih h2
    · rw [if_neg hd]
      exact hc

theorem mem_of_mem_dropWhile (p : Char → Bool) (l : List Char) (c : Char)
    (hc : c ∈ l.dropWhile p) : c ∈ l := by
  induction l with
  | nil => exact hc
  | cons d t ih =>
    rw [List.dropWhile_cons] at hc
    by_cases hd : p d = true
    · rw [if_pos hd] at hc
      exact List.mem_cons_of_mem d (ih hc)
    · rw [if_neg hd] at hc
      exact hc

theorem mem_trimCh_of_mem (l : List Char) (c : Char) (hc : c ∈ l)
    (hp : c.isWhitespace = false) : c ∈ trimCh l := by
  unfold trimCh
  rw [List.mem_reverse]
  exact mem_dropWhile_of_mem _ _ _
    (List.mem_reverse.mpr (mem_dropWhile_of_mem _ _ _ hc hp)) hp

theorem mem_of_mem_trimCh (l : List Char) (c : Char) (hc : c ∈ trimCh l) : c ∈ l := by
  unfold trimCh at hc
  rw [List.mem_reverse] at hc
  have h1 := mem_of_mem_dropWhile _ _ _ hc
  rw [List.mem_reverse] at h1
  exact mem_of_mem_dropWhile _ _ _ h1

theorem count_dropWhile (p : Char → Bool) (l : List Char) (a : Char)
    (ha : p a = false) : (l.dropWhile p).count a = l.count a := by
  induction l with
  | nil => rfl
  | cons c t ih =>
    rw [List.dropWhile_cons]
    by_cases hcp : p c = true
    · have hca : (c == a) = false := by
        refine beq_eq_false_iff_ne.mpr ?_
        intro heq
        subst heq
        simp [ha] at hcp
      rw [if_pos hcp, ih, List.count_cons, hca]
      simp
    · rw [if_neg hcp]

theorem count_trimCh (l : List Char) (a : Char) (ha : a.isWhitespace = false) :
    (trimCh l).count a = l.count a := by
  unfold trimCh
  rw [List.count_reverse, count_dropWhile _ _ _ (by simp [ha]),
    List.count_reverse, count_dropWhile _ _ _ (by simp [ha])]

theorem parse_timer_colon (ds es : List Char) (hds : ds ≠ []) (hes : es ≠ [])
    (hd : ∀ c ∈ ds, c ∈ decimalDigits) (he : ∀ c ∈ es, c ∈ decimalDigits)
    (hbound : valDigits ds * 60 + valDigits es < u64Size) :
    parse_timer (String.mk (ds ++ ':' :: es))
      = some (valDigits ds * 60 + valDigits es) := by
  have hws : ∀ c ∈ ds ++ ':' :: es, c.isWhitespace = false := by
    intro c hcm
    rcases List.mem_append.mp hcm with h1 | h2
    · exact (digit_char_facts c (hd c h1)).2.1
    · rcases List.mem_cons.mp h2 with heq | h3
      · subst heq; decide
      · exact (digit_char_facts c (he c h3)).2.1
  have hnc : ':' ∉ ds := fun hmem => (digit_char_facts ':' (hd ':' hmem)).2.2.1 rfl
  have hb1 : valDigits ds < u64Size := by unfold u64Size at *; omega
  have hb2 : valDigits es < u64Size := by unfold u64Size at *; omega
  simp only [parse_timer, toList_mk, trimCh_eq_self _ hws,
    splitAtColon_append ds es hnc, parseU64_digits ds hds hd hb1,
    parseU64_digits es hes he hb2]
  rw [Nat.mod_eq_of_lt hbound]

theorem parse_timer_bare (ds : List Char) (hds : ds ≠ [])
    (hd : ∀ c ∈ ds, c ∈ decimalDigits) (hb : valDigits ds < u64Size) :
    parse_timer (String.mk ds) = some (valDigits ds) := by
  have hws : ∀ c ∈ ds, c.isWhitespace = false :=
    fun c hc => (digit_char_facts c (hd c hc)).2.1
  have hnc : ':' ∉ ds := fun hmem => (digit_char_facts ':' (hd ':' hmem)).2.2.1 rfl
  simp only [parse_timer, toList_mk, trimCh_eq_self ds hws,
    splitAtColon_none ds hnc, parseU64_digits ds hds hd hb]

theorem parse_timer_multicolon (input : String) (h : 2 ≤ input.toList.count ':') :
    parse_timer input = none := by
  have hct : (trimCh input.toList).count ':' = input.toList.count ':' :=
    count_trimCh _ _ (by decide)
  have hpos : 0 < (trimCh input.toList).count ':' := by rw [hct]; omega
  have hmem : ':' ∈ trimCh input.toList := List.count_pos_iff.mp hpos
  obtain ⟨p, q, hs⟩ := splitAtColon_isSome _ hmem
  obtain ⟨heq, hnp⟩ := splitAtColon_some _ p q hs
  have hcq : 0 < q.count ':' := by
    have e1 : (p ++ ':' :: q).count ':' = p.count ':' + (':' :: q).count ':' :=
      List.count_append _ _ _
    have e2 : (':' :: q).count ':' = q.count ':' + 1 := by
      rw [List.count_cons]; simp
    have e3 : p.count ':' = 0 := List.count_eq_zero.mpr hnp
    have e4 : (p ++ ':' :: q).count ':' = input.toList.count ':' := heq ▸ hct
    omega
  have hq : ':' ∈ q := List.count_pos_iff.mp hcq
  have hpb : parseU64 q = none := parseU64_none_of_mem q ':' hq (by decide) (by decide)
  simp only [parse_timer, hs, hpb]
  cases parseU64 p <;> rfl

theorem parse_timer_minus (input : String) (h : '-' ∈ input.toList) :
    parse_timer input = none := by
  have hm : '-' ∈ trimCh input.toList := mem_trimCh_of_mem _ _ h (by decide)
  cases hs : splitAtColon (trimCh input.toList) with
  | none =>
    simp only [parse_timer, hs]
    exact parseU64_none_of_mem _ '-' hm (by decide) (by decide)
  | some pr =>
    obtain ⟨p, q⟩ := pr
    obtain ⟨heq, hnp⟩ := splitAtColon_some _ p q hs
    rw [heq] at hm
    rcases List.mem_append.mp hm with h1 | h2
    · have hp : parseU64 p = none := parseU64_none_of_mem p '-' h1 (by decide) (by decide)
      simp only [parse_timer, hs, hp]
    · rcases List.mem_cons.mp h2 with heq2 | h3
      · exact absurd heq2 (by decide)
      · have hq : parseU64 q = none := parseU64_none_of_mem q '-' h3 (by decide) (by decide)
        simp only [parse_timer, hs, hq]
        cases parseU64 p <;> rfl

theorem parse_timer_nodigit (input : String)
    (h : ∀ c ∈ input.toList, c.isDigit = false) : parse_timer input = none := by
  have htr : ∀ c ∈ trimCh input.toList, c.isDigit = false :=
    fun c hc => h c (mem_of_mem_trimCh _ _ hc)
  cases hs : splitAtColon (trimCh input.toList) with
  | none =>
    simp only [parse_timer, hs]
    exact parseU64_none_of_all_nondigit _ htr
  | some pr =>
    obtain ⟨p, q⟩ := pr
    obtain ⟨heq, hnp⟩ := splitAtColon_some _ p q hs
    have hp : parseU64 p = none := by
      refine parseU64_none_of_all_nondigit p (fun c hc => ?_)
      refine htr c ?_
      rw [heq]
      exact List.mem_append.mpr (Or.inl hc)
    simp only [parse_timer, hs, hp]

/-- **C3**: `parse` accepts exactly the two grammars
`"<minutes>:<seconds>"` (both parts digit strings, seconds unnormalized and
free to exceed 59) returning `minutes * 60 + seconds`, and a bare digit
string read as seconds; empty input, input with no digit at all, input with
two or more colons, and input containing a negative sign are all parse
errors; in particular `parse "5:30" = 330`, `parse "300" = 300`, and
`parse ""`, `parse "abc"`, `parse "-1"` fail.  (Values are `u64`, so digit
strings are subject to the `2 ^ 64` machine bound of the source.) -/
theorem parse_timer_spec :
    (parse_timer "5:30" = some 330 ∧ parse_timer "300" = some 300 ∧
      parse_timer "" = none ∧ parse_timer "abc" = none ∧ parse_timer "-1" = none)
    ∧ (∀ ds es : List Char, ds ≠ [] → es ≠ [] →
        (∀ c ∈ ds, c ∈ decimalDigits) → (∀ c ∈ es, c ∈ decimalDigits) →
        valDigits ds * 60 + valDigits es < u64Size →
        parse_timer (String.mk (ds ++ ':' :: es))
          = some (valDigits ds * 60 + valDigits es))
    ∧ (∀ ds : List Char, ds ≠ [] → (∀ c ∈ ds, c ∈ decimalDigits) →
        valDigits ds < u64Size → parse_timer (String.mk ds) = some (valDigits ds))
    ∧ (∀ input : String, 2 ≤ input.toList.count ':' → parse_timer input = none)
    ∧ (∀ input : String, '-' ∈ input.toList → parse_timer input = none)
    ∧ (∀ input : String, (∀ c ∈ input.toList, c.isDigit = false) →
        parse_timer input = none)
    ∧ (∀ app : App, parse_timer_input app = parse_timer app.timer_input) :=
  ⟨⟨by decide, by decide, by decide, by decide, by decide⟩,
   parse_timer_colon, parse_timer_bare, parse_timer_multicolon, parse_timer_minus,
   parse_timer_nodigit, fun _ => rfl⟩

theorem parse_timer_spec_witness :
    parse_timer (String.mk (['5'] ++ ':' :: ['9', '0']))
        = some (valDigits ['5'] * 60 + valDigits ['9', '0']) ∧
      parse_timer (String.mk ['3', '0', '0']) = some (valDigits ['3', '0', '0']) ∧
      parse_timer "1:2:3" = none ∧
      parse_timer "5:-1" = none ∧
      parse_timer "x/y" = none :=
  ⟨parse_timer_spec.2.1 ['5'] ['9', '0'] (by decide) (by decide) (by decide)
     (by decide) (by decide),
   parse_timer_spec.2.2.1 ['3', '0', '0'] (by decide) (by decide) (by decide),
   parse_timer_spec.2.2.2.1 "1:2:3" (by decide),
   parse_timer_spec.2.2.2.2.1 "5:-1" (by decide),
   parse_timer_spec.2.2.2.2.2.1 "x/y" (by decide)⟩

/-! ### Selection-index invariant machinery -/

/-- When the filtered list is empty the stored index is `none` or `some 0`. -/
def SelEmptyInv (app : App) : Prop :=
  app.filtered_processes = [] → app.list_state = none ∨ app.list_state = some 0

theorem filter_processes_list_state (app : App) :
    (filter_processes app).list_state =
      match app.list_state with
      | some selected =>
          if selected ≥ (filter_processes app).filtered_processes.length then
            some ((filter_processes app).filtered_processes.length - 1)
          else some selected
      | none => none := rfl

theorem refresh_processes_eq (app : App) (snap : List (Pid × String)) :
    refresh_processes app snap =
      if ¬ (filter_processes { app with processes := sortByName snap
          }).filtered_processes.isEmpty
          ∧ (filter_processes { app with processes := sortByName snap
          }).list_state = none then
        { filter_processes { app with processes := sortByName snap } with
          list_state := some 0 }
      else filter_processes { app with processes := sortByName snap } := rfl

theorem next_list_state (app : App) :
    (next app).list_state =
      some (match app.list_state with
        | some i => if i ≥ app.filtered_processes.length - 1 then 0 else i + 1
        | none => 0) := rfl

theorem previous_list_state (app : App) :
    (previous app).list_state =
      some (match app.list_state with
        | some i => if i = 0 then app.filtered_processes.length - 1 else i - 1
        | none => 0) := rfl

theorem select_process_filtered (app : App) :
    (select_process app).filtered_processes = app.filtered_processes := by
  unfold select_process
  split
  · split <;> rfl
  · rfl

theorem select_process_list_state (app : App) :
    (select_process app).list_state = app.list_state := by
  unfold select_process
  split
  · split <;> rfl
  · rfl

theorem start_timer_filtered (app : App) (now : Nat) :
    (start_timer app now).filtered_processes = app.filtered_processes := by
  unfold start_timer
  split <;> rfl

theorem start_timer_list_state (app : App) (now : Nat) :
    (start_timer app now).list_state = app.list_state := by
  unfold start_timer
  split <;> rfl

theorem filter_processes_inv (app : App) : SelEmptyInv (filter_processes app) := by
  intro hemp
  rw [filter_processes_list_state]
  cases hls : app.list_state with
  | none => exact Or.inl rfl
  | some i =>
    right
    rw [hemp]
    simp

theorem refresh_processes_inv (app : App) (snap : List (Pid × String)) :
    SelEmptyInv (refresh_processes app snap) := by
  rw [refresh_processes_eq]
  by_cases hcond :
      ¬ (filter_processes { app with processes := sortByName snap
        }).filtered_processes.isEmpty
      ∧ (filter_processes { app with processes := sortByName snap
        }).list_state = none
  · rw [if_pos hcond]
    intro hemp
    have h2 : (filter_processes { app with processes := sortByName snap
        }).filtered_processes = [] := hemp
    rw [h2] at hcond
    simp at hcond
  · rw [if_neg hcond]
    exact filter_processes_inv _

theorem next_empty_sel (app : App) (h : app.filtered_processes = []) :
    (next app).list_state = some 0 := by
  rw [next_list_state]
  cases hls : app.list_state with
  | none => rfl
  | some i => simp [h]

theorem previous_empty_sel (app : App) (h : app.filtered_processes = [])
    (hls : app.list_state = none ∨ app.list_state = some 0) :
    (previous app).list_state = some 0 := by
  rw [previous_list_state]
  rcases hls with hn | h0
  · rw [hn]
  · rw [h0]
    simp [h]

theorem next_inv (app : App) : SelEmptyInv (next app) := by
  intro hemp
  exact Or.inr (next_empty_sel app hemp)

theorem previous_inv (app : App) (h : SelEmptyInv app) : SelEmptyInv (previous app) := by
  intro hemp
  exact Or.inr (previous_empty_sel app hemp (h hemp))

theorem select_process_inv (app : App) (h : SelEmptyInv app) :
    SelEmptyInv (select_process app) := by
  intro hemp
  rw [select_process_filtered] at hemp
  rw [select_process_list_state]
  exact h hemp

theorem start_timer_inv (app : App) (now : Nat) (h : SelEmptyInv app) :
    SelEmptyInv (start_timer app now) := by
  intro hemp
  rw [start_timer_filtered] at hemp
  rw [start_timer_list_state]
  exact h hemp

theorem timer_tick_inv (app : App) (now : Nat) (pe kr : Pid → Bool)
    (snap : List (Pid × String)) (h : SelEmptyInv app) :
    SelEmptyInv (timer_tick app now pe kr snap) := by
  unfold timer_tick
  split
  · split
    · split
      · exact refresh_processes_inv _ _
      · exact h
    · exact h
  · exact h

theorem handle_event_inv (app : App) (e : KeyEvent) (now : Nat) (h : SelEmptyInv app) :
    SelEmptyInv (handle_event app e now) := by
  cases hm : app.mode <;> cases e <;> simp only [handle_event, hm]
  case ProcessSelect.up => exact previous_inv app h
  case ProcessSelect.down => exact next_inv app
  case ProcessSelect.enter => exact select_process_inv app h
  case ProcessSelect.backspace => exact filter_processes_inv _
  case ProcessSelect.esc => exact h
  case ProcessSelect.ch c =>
    by_cases hq : c = 'q' ∨ c = 'Q'
    · rw [if_pos hq]; exact h
    · rw [if_neg hq]
      by_cases hsl : c = '/'
      · rw [if_pos hsl]; exact h
      · rw [if_neg hsl]; exact filter_processes_inv _
  case TimerInput.up => exact h
  case TimerInput.down => exact h
  case TimerInput.enter => exact start_timer_inv app now h
  case TimerInput.backspace => exact h
  case TimerInput.esc => exact h
  case TimerInput.ch c =>
    by_cases hq : c = 'q' ∨ c = 'Q'
    · rw [if_pos hq]; exact h
    · rw [if_neg hq]; exact h
  case TimerRunning.up => exact h
  case TimerRunning.down => exact h
  case TimerRunning.enter => exact h
  case TimerRunning.backspace => exact h
  case TimerRunning.esc => exact h
  case TimerRunning.ch c =>
    by_cases hq : c = 'q' ∨ c = 'Q'
    · rw [if_pos hq]; exact h
    · rw [if_neg hq]; exact h

theorem loop_iter_inv (app : App) (now : Nat) (pe kr : Pid → Bool)
    (s1 s2 : List (Pid × String)) (ev : Option KeyEvent) (h : SelEmptyInv app) :
    SelEmptyInv (loop_iter app now pe kr s1 s2 ev) := by
  unfold loop_iter
  dsimp only
  split
  · exact refresh_processes_inv _ _
  · cases ev with
    | some e => exact handle_event_inv _ _ _ (timer_tick_inv _ _ _ _ _ h)
    | none => exact timer_tick_inv _ _ _ _ _ h

theorem reachable_empty_sel (app : App) (h : Reachable app) : SelEmptyInv app := by
  induction h with
  | init snapshot => exact refresh_processes_inv _ _
  | step app now pe kr s1 s2 ev hr ih => exact loop_iter_inv _ _ _ _ _ _ _ ih

theorem filter_clamp_empty (app : App) (i : Nat) (hi : app.list_state = some i)
    (hemp : (filter_processes app).filtered_processes = []) :
    (filter_processes app).list_state = some 0 := by
  rw [filter_processes_list_state, hi, hemp]
  simp

theorem filter_bound (app : App) (j : Nat)
    (hj : (filter_processes app).list_state = some j)
    (hne : (filter_processes app).filtered_processes ≠ []) :
    j < (filter_processes app).filtered_processes.length := by
  rw [filter_processes_list_state] at hj
  have hlen : 0 < (filter_processes app).filtered_processes.length :=
    List.length_pos.mpr hne
  cases hls : app.list_state with
  | none => rw [hls] at hj; simp at hj
  | some j0 =>
    rw [hls] at hj
    dsimp only at hj
    by_cases hge : j0 ≥ (filter_processes app).filtered_processes.length
    · rw [if_pos hge] at hj
      injection hj with hj2
      omega
    · rw [if_neg hge] at hj
      injection hj with hj2
      omega

theorem next_in_bounds (app : App) (hne : app.filtered_processes ≠ []) :
    ∃ i, (next app).list_state = some i ∧ i < app.filtered_processes.length := by
  have hlen : 0 < app.filtered_processes.length := List.length_pos.mpr hne
  rw [next_list_state]
  cases hls : app.list_state with
  | none => exact ⟨0, rfl, hlen⟩
  | some j =>
    dsimp only
    by_cases hge : j ≥ app.filtered_processes.length - 1
    · refine ⟨0, ?_, hlen⟩
      rw [if_pos hge]
    · refine ⟨j + 1, ?_, by omega⟩
      rw [if_neg hge]

theorem previous_in_bounds (app : App) (hne : app.filtered_processes ≠ [])
    (hls : app.list_state = none ∨
      ∃ j, app.list_state = some j ∧ j < app.filtered_processes.length) :
    ∃ i, (previous app).list_state = some i ∧ i < app.filtered_processes.length := by
  have hlen : 0 < app.filtered_processes.length := List.length_pos.mpr hne
  rw [previous_list_state]
  rcases hls with hn | ⟨j, hj, hjlt⟩
  · rw [hn]
    exact ⟨0, rfl, hlen⟩
  · rw [hj]
    dsimp only
    by_cases h0 : j = 0
    · refine ⟨app.filtered_processes.length - 1, ?_, by omega⟩
      rw [if_pos h0]
    · refine ⟨j - 1, ?_, by omega⟩
      rw [if_neg h0]

/-- **C10**: when a query edit or refresh leaves `filtered_processes` empty
while a selection index was previously set, the index becomes `Some 0`
rather than `None`; move-up and move-down on an empty filtered list (in any
reachable state) also set it to `Some 0`; hence the stored index can equal
`filtered.len()` on an empty list (witnessed by a reachable state), and the
confirm access through the bounds-checked `get` is a no-op there. -/
theorem empty_filtered_selection_spec :
    (∀ app i, app.list_state = some i →
      (filter_processes app).filtered_processes = [] →
      (filter_processes app).list_state = some 0)
    ∧ (∀ app i snap, app.list_state = some i →
      (refresh_processes app snap).filtered_processes = [] →
      (refresh_processes app snap).list_state = some 0)
    ∧ (∀ app, Reachable app → app.filtered_processes = [] →
      (next app).list_state = some 0 ∧ (previous app).list_state = some 0)
    ∧ (∃ app, Reachable app ∧ app.filtered_processes = [] ∧
      app.list_state = some app.filtered_processes.length)
    ∧ (∀ app, app.filtered_processes = [] → select_process app = app) := by
  refine ⟨?_, ?_, ?_, ?_, ?_⟩
  · exact filter_clamp_empty
  · intro app i snap hi hemp
    rw [refresh_processes_eq] at hemp ⊢
    by_cases hcond :
        ¬ (filter_processes { app with processes := sortByName snap
          }).filtered_processes.isEmpty
        ∧ (filter_processes { app with processes := sortByName snap
          }).list_state = none
    · rw [if_pos hcond] at hemp
      have h2 : (filter_processes { app with processes := sortByName snap
          }).filtered_processes = [] := hemp
      rw [h2] at hcond
      simp at hcond
    · rw [if_neg hcond] at hemp ⊢
      exact filter_clamp_empty _ i hi hemp
  · intro app hre hemp
    exact ⟨next_empty_sel app hemp,
      previous_empty_sel app hemp (reachable_empty_sel app hre hemp)⟩
  · refine ⟨loop_iter (App.new [(1, "alpha")]) 0 noProc noProc [] [(1, "alpha")]
      (some (KeyEvent.ch 'z')), ?_, by decide, by decide⟩
    exact Reachable.step (App.new [(1, "alpha")]) 0 noProc noProc [] [(1, "alpha")]
      (some (KeyEvent.ch 'z')) (Reachable.init [(1, "alpha")])
  · intro app hemp
    cases hls : app.list_state with
    | none => simp [select_process, hls]
    | some i => simp [select_process, hls, hemp]

def clampToZeroApp : App := { App.blank with search_query := "z", list_state := some 5 }

theorem empty_filtered_selection_spec_witness :
    (filter_processes clampToZeroApp).list_state = some 0 ∧
      (next (App.new [])).list_state = some 0 ∧
      select_process App.blank = App.blank :=
  ⟨empty_filtered_selection_spec.1 clampToZeroApp 5 rfl (by decide),
   (empty_filtered_selection_spec.2.2.1 (App.new []) (Reachable.init []) (by decide)).1,
   empty_filtered_selection_spec.2.2.2.2 App.blank (by decide)⟩

/-- **C6** (amended): after a refresh, a non-empty `filtered` always has a
selection `Some i` with `i < filtered.len()`; a query edit clamps a `Some`
index down to `min i (len − 1)` (so any `Some` index stays in bounds), and
navigation from an in-bounds (or absent) selection stays in bounds on a
non-empty list — but a query edit alone does not promote a `None` selection
to `Some` when `filtered` becomes non-empty; only the next refresh does. -/
theorem selection_invariant_spec :
    (∀ app snap, (refresh_processes app snap).filtered_processes ≠ [] →
      ∃ i, (refresh_processes app snap).list_state = some i ∧
        i < (refresh_processes app snap).filtered_processes.length)
    ∧ (∀ app j, (filter_processes app).list_state = some j →
      (filter_processes app).filtered_processes ≠ [] →
      j < (filter_processes app).filtered_processes.length)
    ∧ (∀ app j, app.list_state = some j →
      (filter_processes app).list_state
        = some (min j ((filter_processes app).filtered_processes.length - 1)))
    ∧ (∀ app, app.filtered_processes ≠ [] →
      (app.list_state = none ∨
        ∃ j, app.list_state = some j ∧ j < app.filtered_processes.length) →
      (∃ i, (next app).list_state = some i ∧
        i < (next app).filtered_processes.length) ∧
      (∃ i, (previous app).list_state = some i ∧
        i < (previous app).filtered_processes.length)) := by
  refine ⟨?_, filter_bound, ?_, ?_⟩
  · intro app snap hne
    rw [refresh_processes_eq] at hne ⊢
    by_cases hcond :
        ¬ (filter_processes { app with processes := sortByName snap
          }).filtered_processes.isEmpty
        ∧ (filter_processes { app with processes := sortByName snap
          }).list_state = none
    · rw [if_pos hcond] at hne ⊢
      have h2 : (filter_processes { app with processes := sortByName snap
          }).filtered_processes ≠ [] := hne
      exact ⟨0, rfl, List.length_pos.mpr h2⟩
    · rw [if_neg hcond] at hne ⊢
      cases hls : (filter_processes { app with processes := sortByName snap
          }).list_state with
      | none =>
        have hne2 : ¬ (filter_processes { app with processes := sortByName snap
            }).filtered_processes.isEmpty := by
          simp only [List.isEmpty_iff]
          exact hne
        exact absurd ⟨hne2, hls⟩ hcond
      | some j => exact ⟨j, rfl, filter_bound _ j hls hne⟩
  · intro app j hj
    rw [filter_processes_list_state, hj]
    dsimp only
    by_cases hge : j ≥ (filter_processes app).filtered_processes.length
    · rw [if_pos hge]
      congr 1
      omega
    · rw [if_neg hge]
      congr 1
      omega
  · intro app hne hls
    refine ⟨?_, ?_⟩
    · obtain ⟨i, hi, hilt⟩ := next_in_bounds app hne
      exact ⟨i, hi, hilt⟩
    · obtain ⟨i, hi, hilt⟩ := previous_in_bounds app hne hls
      exact ⟨i, hi, hilt⟩

def clampApp : App := { App.blank with processes := [(1, "a")], list_state := some 5 }

theorem selection_invariant_spec_witness :
    (∃ i, (refresh_processes App.blank [(1, "a")]).list_state = some i ∧
      i < (refresh_processes App.blank [(1, "a")]).filtered_processes.length) ∧
      (filter_processes clampApp).list_state
        = some (min 5 ((filter_processes clampApp).filtered_processes.length - 1)) :=
  ⟨selection_invariant_spec.1 App.blank [(1, "a")] (by decide),
   selection_invariant_spec.2.2.1 clampApp 5 rfl⟩

def c6s1 : App :=
  loop_iter (App.new []) 0 noProc noProc [] [(1, "alpha")] (some (KeyEvent.ch 'z'))

/-- **C6** counterexample: from a reachable state (startup with an empty
process snapshot, query "z" typed, a refresh bringing in process "alpha"),
the backspace query edit leaves `filtered` non-empty while the selection is
still `None` — not `Some i` with `i < len` as the claim requires. -/
theorem selection_none_after_query_edit :
    Reachable c6s1 ∧ c6s1.processes = [(1, "alpha")] ∧ c6s1.list_state = none ∧
      (handle_event c6s1 KeyEvent.backspace 0).filtered_processes = [(1, "alpha")] ∧
      (handle_event c6s1 KeyEvent.backspace 0).list_state = none :=
  ⟨Reachable.step (App.new []) 0 noProc noProc [] [(1, "alpha")]
     (some (KeyEvent.ch 'z')) (Reachable.init []),
   by decide, by decide, by decide, by decide⟩
